import Mathlib

/-!
Shallow embedding of `src/watchable.ts` (class `Watchable<T>`).

JavaScript values are modelled by `JSVal`; objects and arrays live in an
explicit heap (`List (Nat × HeapObj)`) so that reference identity (`===`),
in-place mutation and Proxy wrapping are all observable.  A `Proxy` created
by `_createProxy` is a heap cell `HeapObj.proxy t` remembering its target
`t`; reads pass through (the source installs only a `set` trap), writes go
through `trapSet`, the embedding of the trap body.

Functions (callbacks, predicates) are `JSVal.func id`; an environment
`Env` gives each id its semantics: `predSem` (boolean predicate on a
change event) and `act` (the registry operations the callback performs on
its own Watchable when invoked — the only callback side effects the claims
exercise).  Predicates synthesised by `when` itself are first-order
(`PredForm.eqRes` / `PredForm.eqNew`).

All mutating operations are fuelled (`fuel`): the source recursion has no
cycle detection (spec §9 flags cyclic graphs as unsupported), so the
faithful embedding is partial; running out of fuel sets `errFlag`.
Model scope: numbers are `Int` (no NaN/±0), objects are prototype-less
finite maps (property access on primitives other than string `length`
yields `undefined`), and a callback that is not a function is invoked as a
logged no-op with `errFlag` set (real JS throws `TypeError` there).
-/

/-- A JavaScript value.  `ref` points into the heap. -/
inductive JSVal : Type
  | undef : JSVal
  | null : JSVal
  | bool : Bool → JSVal
  | num : Int → JSVal
  | str : String → JSVal
  | ref : Nat → JSVal
  | func : Nat → JSVal
deriving DecidableEq, Repr

/-- A heap object: a plain object/array, or a Proxy with its target. -/
inductive HeapObj : Type
  | raw : Bool → List (String × JSVal) → HeapObj
  | proxy : Nat → HeapObj
deriving DecidableEq, Repr

/-- JS truthiness. -/
def truthy : JSVal → Bool
  | JSVal.undef => false
  | .null => false
  | .bool b => b
  | .num n => n != 0
  | .str s => s ≠ ""
  | .ref _ => true
  | .func _ => true

/-- `v && typeof v === "object"`: a truthy object reference. -/
def isObjRef : JSVal → Bool
  | .ref _ => true
  | _ => false

/-- `typeof v === "object"` (`null` included, functions excluded). -/
def isObjType : JSVal → Bool
  | .ref _ => true
  | .null => true
  | _ => false

/-- JS strict equality `===` on modelled values. -/
def jsEq (v w : JSVal) : Bool := v = w

/-- Association-list update: replace in place, else append (JS property
    insertion order). -/
def assocSet : List (String × JSVal) → String → JSVal → List (String × JSVal)
  | [], k, v => [(k, v)]
  | (k', v') :: rest, k, v =>
      if k' = k then (k, v) :: rest else (k', v') :: assocSet rest k v

/-- Heap lookup. -/
def heapGet (h : List (Nat × HeapObj)) (a : Nat) : Option HeapObj :=
  match h with
  | [] => none
  | (a', o) :: rest => if a' = a then some o else heapGet rest a

/-- Heap update (replace the binding of `a`). -/
def heapSet (h : List (Nat × HeapObj)) (a : Nat) (o : HeapObj) :
    List (Nat × HeapObj) :=
  match h with
  | [] => [(a, o)]
  | (a', o') :: rest =>
      if a' = a then (a, o) :: rest else (a', o') :: heapSet rest a o

/-- Property read through proxy chains (the source's proxies have no `get`
    trap, so reads pass through to the target).  Fuelled by chain length. -/
def getFieldF : Nat → List (Nat × HeapObj) → Nat → String → JSVal
  | 0, _, _, _ => JSVal.undef
  | fuel + 1, h, a, k =>
      match heapGet h a with
      | some (.proxy t) => getFieldF fuel h t k
      | some (.raw _ fs) => (fs.lookup k).getD JSVal.undef
      | none => JSVal.undef

/-- Property read `a[k]` (enough fuel for any chain inside the heap). -/
def getField (h : List (Nat × HeapObj)) (a : Nat) (k : String) : JSVal :=
  getFieldF (h.length + 1) h a k

/-- `Object.entries` through proxy chains (pass-through reads). -/
def entriesOfF : Nat → List (Nat × HeapObj) → Nat → List (String × JSVal)
  | 0, _, _ => []
  | fuel + 1, h, a =>
      match heapGet h a with
      | some (.proxy t) => entriesOfF fuel h t
      | some (.raw _ fs) => fs
      | none => []

/-- `Object.entries(obj)` for a heap reference. -/
def entriesOf (h : List (Nat × HeapObj)) (a : Nat) : List (String × JSVal) :=
  entriesOfF (h.length + 1) h a

/-- Decimal value of a digit list (none on a non-digit). -/
def strToNatAux : List Char → Nat → Option Nat
  | [], acc => some acc
  | c :: rest, acc =>
      if c.isDigit then strToNatAux rest (acc * 10 + (c.toNat - 48)) else none

/-- Parse a property key as a number (array index detection). -/
def strToNat? (s : String) : Option Nat :=
  match s.data with
  | [] => none
  | l => strToNatAux l 0

/-- Store into a plain object/array: arrays update `length` when an index
    at or past the current length is written (ECMAScript array exotic
    behaviour), which is what makes `push`'s later length write a no-op. -/
def rawStoreFields (isArr : Bool) (fs : List (String × JSVal)) (k : String)
    (v : JSVal) : List (String × JSVal) :=
  let fs1 := assocSet fs k v
  if isArr then
    match strToNat? k with
    | some n =>
        let len : Int := match fs.lookup "length" with
          | some (.num m) => m
          | _ => 0
        if len < (n : Int) + 1 then assocSet fs1 "length" (.num ((n : Int) + 1))
        else fs1
    | none => fs1
  else fs1

/-- A change event (`ChangeEvent<T>`); absent fields read as `undefined`. -/
structure ChangeEvent : Type where
  newValue : JSVal
  oldValue : JSVal
  root : JSVal
  target : JSVal
  property : JSVal
  res : JSVal
deriving DecidableEq, Repr

/-- The predicate stored with a listener: a user function, or one of the
    two closures `when` synthesises (`e => e?.res === v`,
    `x => x?.newValue === v`). -/
inductive PredForm : Type
  | extFn : Nat → PredForm
  | eqRes : JSVal → PredForm
  | eqNew : JSVal → PredForm
deriving DecidableEq, Repr

/-- `PredicateData`: optional property path plus the predicate. -/
structure PredData : Type where
  propertyPath : Option String
  predicate : PredForm
deriving DecidableEq, Repr

/-- `WatchOptions`. -/
structure WatchOptions : Type where
  once : Bool
  condition : Option PredData
deriving DecidableEq, Repr

/-- A registry operation a callback may perform when invoked. -/
inductive RegOp : Type
  | add : JSVal → WatchOptions → RegOp
  | remove : JSVal → RegOp
deriving DecidableEq, Repr

/-- Whole-instance state.  `callbacks` models the JS `Set` as a slot list
    (value, alive): deletion tombstones the slot so that the `for..of`
    cursor semantics (skip deleted, visit appended) are exact.
    `dispatches` records each `_runCallbacks` entry, `invocations` each
    listener call — the observation logs the theorems talk about. -/
structure St : Type where
  heap : List (Nat × HeapObj)
  next : Nat
  callbacks : List (JSVal × Bool)
  toRemove : List JSVal
  predicates : List (JSVal × PredData)
  oldValue : JSVal
  proxyAddr : Nat
  dispatches : List ChangeEvent
  invocations : List (JSVal × ChangeEvent)
  errFlag : Bool
deriving DecidableEq, Repr

/-- Semantics of function ids: predicate meaning and callback effects. -/
structure Env : Type where
  predSem : Nat → ChangeEvent → Bool
  act : Nat → List RegOp

/-- `Set.add`: no-op when a live slot already holds the value. -/
def setAdd (slots : List (JSVal × Bool)) (v : JSVal) : List (JSVal × Bool) :=
  if slots.any (fun s => s.2 && s.1 == v) then slots else slots ++ [(v, true)]

/-- `Set.delete`: tombstone the live slot holding the value. -/
def setDelete : List (JSVal × Bool) → JSVal → List (JSVal × Bool)
  | [], _ => []
  | (w, alive) :: rest, v =>
      if alive && w == v then (w, false) :: rest
      else (w, alive) :: setDelete rest v

/-- Live membership in the slot list. -/
def setMem (slots : List (JSVal × Bool)) (v : JSVal) : Bool :=
  slots.any (fun s => s.2 && s.1 == v)

/-- Add to a JS `Set` modelled as a duplicate-free list. -/
def addUnique (l : List JSVal) (v : JSVal) : List JSVal :=
  if l.contains v then l else l ++ [v]

/-- Association-list lookup for the predicate map. -/
def predGet : List (JSVal × PredData) → JSVal → Option PredData
  | [], _ => none
  | (w, d) :: rest, v => if w = v then some d else predGet rest v

/-- `Map.set` for the predicate map. -/
def predSet : List (JSVal × PredData) → JSVal → PredData →
    List (JSVal × PredData)
  | [], v, d => [(v, d)]
  | (w, d') :: rest, v, d =>
      if w = v then (v, d) :: rest else (w, d') :: predSet rest v d

/-- `Map.delete` for the predicate map. -/
def predDel : List (JSVal × PredData) → JSVal → List (JSVal × PredData)
  | [], _ => []
  | (w, d) :: rest, v => if w = v then rest else (w, d) :: predDel rest v

/-- `addChangeListener(callback, options)`. -/
def addChangeListener (s : St) (cb : JSVal) (opts : WatchOptions) : St :=
  { s with
    callbacks := setAdd s.callbacks cb
    toRemove := if opts.once then addUnique s.toRemove cb else s.toRemove
    predicates := match opts.condition with
      | some c => predSet s.predicates cb c
      | none => s.predicates }

/-- `removeChangeListener(callback)`. -/
def removeChangeListener (s : St) (cb : JSVal) : St :=
  { s with
    callbacks := setDelete s.callbacks cb
    toRemove := s.toRemove.erase cb
    predicates := predDel s.predicates cb }

/-- `clearListeners()`. -/
def clearListeners (s : St) : St :=
  { s with callbacks := [], toRemove := [], predicates := [] }

/-- `this.value` — read the synthetic `value` field through the root proxy. -/
def rootVal (s : St) : JSVal := getField s.heap s.proxyAddr "value"

/-- `\w` of the source's path regex. -/
def wordChar (c : Char) : Bool := c.isAlphanum || c = '_'

/-- Scanner equivalent to the source's `propRegEx` driven by `matchAll`:
    identifier runs ending the string or followed by `.`/`[`, and
    bracketed single- or double-quoted segments; unmatched characters are
    skipped.  An empty quoted capture is falsy, so the source pushes
    `undefined`, which property lookup coerces to the key `"undefined"`. -/
def scanPath : Nat → List Char → List String
  | 0, _ => []
  | _ + 1, [] => []
  | fuel + 1, c :: rest =>
      if wordChar c then
        let run := (c :: rest).takeWhile wordChar
        let after := (c :: rest).dropWhile wordChar
        match after with
        | [] => [String.mk run]
        | '.' :: _ => String.mk run :: scanPath fuel after
        | '[' :: _ => String.mk run :: scanPath fuel after
        | _ => scanPath fuel after
      else if c = '[' then
        match rest with
        | q :: r2 =>
            if q = '"' || q = '\'' then
              let inner := r2.takeWhile (fun d => d ≠ q)
              let r3 := r2.dropWhile (fun d => d ≠ q)
              match r3 with
              | _ :: ']' :: r4 =>
                  (if inner.isEmpty then "undefined" else String.mk inner) ::
                    scanPath fuel r4
              | _ => scanPath fuel rest
            else scanPath fuel rest
        | [] => []
      else scanPath fuel rest

/-- Parse a property path into its key list (`_getNestedValue`'s loop over
    `path.matchAll(this.propRegEx)`). -/
def parsePath (p : String) : List String := scanPath (p.length + 1) p.data

/-- Helper for `path.split(".").at(-1)`. -/
def lastSegGo : List Char → List Char → List Char
  | [], acc => acc.reverse
  | '.' :: rest, _ => lastSegGo rest []
  | c :: rest, acc => lastSegGo rest (c :: acc)

/-- `path.split(".").at(-1)` (the `property` field `when` reports). -/
def lastSeg (p : String) : String := String.mk (lastSegGo p.data [])

/-- One JS property read `value[key]`: reading off `undefined`/`null`
    throws (`Except.error`); objects read through the heap; a string
    exposes `length`; other primitives yield `undefined` (the model has no
    prototype chains). -/
def indexVal (h : List (Nat × HeapObj)) (v : JSVal) (k : String) :
    Except Unit JSVal :=
  match v with
  | JSVal.undef => .error ()
  | .null => .error ()
  | .ref a => .ok (getField h a k)
  | .str s => .ok (if k = "length" then .num s.length else JSVal.undef)
  | _ => .ok JSVal.undef

/-- The `try` body of `_getNestedValue`: walk the keys, advancing the
    parent pointer `obj` whenever the current value is an object; a throw
    surfaces as `Except.error` carrying the parent at that moment. -/
def resolveKeysE (h : List (Nat × HeapObj)) :
    List String → JSVal → JSVal → Except JSVal (JSVal × JSVal)
  | [], v, obj => .ok (v, obj)
  | k :: ks, v, obj =>
      let obj' := if isObjRef v then v else obj
      match indexVal h v k with
      | .ok v' => resolveKeysE h ks v' obj'
      | .error _ => .error obj'

/-- `_getNestedValue`'s loop with its `catch`: a throw is logged and
    recovered as `undefined`, the parent pointer keeping its last
    successful position. -/
def resolveKeys (h : List (Nat × HeapObj)) :
    List String → JSVal → JSVal → JSVal × JSVal
  | [], v, obj => (v, obj)
  | k :: ks, v, obj =>
      let obj' := if isObjRef v then v else obj
      match indexVal h v k with
      | .ok v' => resolveKeys h ks v' obj'
      | .error _ => (JSVal.undef, obj')

/-- Some step of the resolution misses: the read throws, or yields
    `undefined` (absent key, or non-indexable intermediate value). -/
def hasMiss (h : List (Nat × HeapObj)) : List String → JSVal → Bool
  | [], _ => false
  | k :: ks, v =>
      match indexVal h v k with
      | .error _ => true
      | .ok v' => jsEq v' JSVal.undef || hasMiss h ks v'

/-- `_getNestedValue(path)`: `[value, obj]`, starting from `this.value`
    with the parent pointer at `this._proxy`. -/
def getNestedValue (s : St) (p : String) : JSVal × JSVal :=
  resolveKeys s.heap (parsePath p) (rootVal s) (.ref s.proxyAddr)

/-- Meaning of a stored predicate. -/
def predApply (env : Env) : PredForm → ChangeEvent → Bool
  | .extFn i, e => env.predSem i e
  | .eqRes v, e => jsEq e.res v
  | .eqNew v, e => jsEq e.newValue v

/-- Apply a callback's registry operations in order. -/
def applyActs : St → List RegOp → St
  | s, [] => s
  | s, .add cb opts :: rest => applyActs (addChangeListener s cb opts) rest
  | s, .remove cb :: rest => applyActs (removeChangeListener s cb) rest

/-- Invoke a callback value: log the invocation, then perform the
    callback's effects.  Invoking a non-function is a JS `TypeError`;
    the model logs it and sets `errFlag`. -/
def invokeEffects (env : Env) (s : St) (cb : JSVal) : St :=
  match cb with
  | .func i => applyActs s (env.act i)
  | _ => { s with errFlag := true }

/-- First live slot at index ≥ the cursor (JS `Set` iterator step). -/
def findLiveAux : List (JSVal × Bool) → Nat → Option (Nat × JSVal)
  | [], _ => none
  | (v, alive) :: rest, i =>
      if alive then some (i, v) else findLiveAux rest (i + 1)

/-- Resume the `for..of` cursor of `_runCallbacks` at index `i`. -/
def findLive (slots : List (JSVal × Bool)) (i : Nat) : Option (Nat × JSVal) :=
  findLiveAux (slots.drop i) i

/-- The condition step of one `_runCallbacks` iteration: resolve the
    listener's `propertyPath` into `e.res` (in place — later listeners see
    the mutated event) when the current root is an object, then evaluate
    its predicate.  Returns the (possibly updated) event and the `execute`
    flag. -/
def rcGate (env : Env) (s : St) (e : ChangeEvent) (cb : JSVal) :
    ChangeEvent × Bool :=
  match predGet s.predicates cb with
  | none => (e, true)
  | some cd =>
      let e1 := match cd.propertyPath with
        | some p =>
            if isObjRef (rootVal s) then
              { e with res := (getNestedValue s p).1 }
            else e
        | none => e
      (e1, predApply env cd.predicate e1)

/-- The invocation step of one `_runCallbacks` iteration: call the
    listener (log plus its registry effects), then consume a pending
    `once` removal (`_toRemove.delete` + `removeChangeListener`). -/
def rcInvoke (env : Env) (s : St) (cb : JSVal) (e1 : ChangeEvent) : St :=
  let s2 := invokeEffects env
    { s with invocations := s.invocations ++ [(cb, e1)] } cb
  if s2.toRemove.contains cb then removeChangeListener s2 cb else s2

mutual

/-- `_deepProxy(obj)`: recursively wrap each object-valued entry in place,
    then wrap `obj` itself (`_createProxy`) in a fresh proxy cell. -/
def deepProxy (env : Env) : Nat → St → Nat → St × Nat
  | 0, s, a => ({ s with errFlag := true }, a)
  | fuel + 1, s, a =>
      let s1 := dpLoop env fuel s a (entriesOf s.heap a)
      let p := s1.next
      ({ s1 with heap := heapSet s1.heap p (.proxy a), next := p + 1 }, p)
termination_by structural fuel _ _ => fuel

/-- The `for (const [key, value] of Object.entries(obj))` loop of
    `_deepProxy`; the store goes through `assignField` because `obj` may
    itself be a proxy, in which case the write hits its trap. -/
def dpLoop (env : Env) : Nat → St → Nat → List (String × JSVal) → St
  | _, s, _, [] => s
  | 0, s, _, _ :: _ => { s with errFlag := true }
  | fuel + 1, s, a, (k, v) :: rest =>
      match v with
      | .ref b =>
          let r := deepProxy env fuel s b
          let s2 := assignField env fuel r.1 a k (.ref r.2)
          dpLoop env fuel s2 a rest
      | _ => dpLoop env fuel s a rest
termination_by structural fuel _ _ _ => fuel

/-- A JS property write `a[k] = v`: plain store on a raw object/array,
    trap invocation on a proxy. -/
def assignField (env : Env) : Nat → St → Nat → String → JSVal → St
  | 0, s, _, _, _ => { s with errFlag := true }
  | fuel + 1, s, a, k, v =>
      match heapGet s.heap a with
      | some (.proxy _) => trapSet env fuel s a k v
      | some (.raw ar fs) =>
          { s with heap := heapSet s.heap a (.raw ar (rawStoreFields ar fs k v)) }
      | none => { s with errFlag := true }
termination_by structural fuel _ _ _ _ => fuel

/-- The `set` trap installed by `_createProxy`: record `oldValue`,
    suppress when `oldValue === v`, deep-wrap object values before
    storing, then dispatch the change event. -/
def trapSet (env : Env) : Nat → St → Nat → String → JSVal → St
  | 0, s, _, _, _ => { s with errFlag := true }
  | fuel + 1, s, a, k, v =>
      match heapGet s.heap a with
      | some (.proxy t) =>
          let old := getField s.heap t k
          let s0 := { s with oldValue := old }
          if jsEq old v then s0
          else
            let s1 := match v with
              | .ref b =>
                  let r := deepProxy env fuel s0 b
                  assignField env fuel r.1 t k (.ref r.2)
              | _ => assignField env fuel s0 t k v
            let e : ChangeEvent :=
              { newValue := v, oldValue := old, root := rootVal s1,
                target := .ref t, property := .str k, res := JSVal.undef }
            runCallbacks env fuel s1 e
      | _ => { s with errFlag := true }
termination_by structural fuel _ _ _ _ => fuel

/-- `_runCallbacks(e)`: record the dispatch and iterate the live listener
    set from the start. -/
def runCallbacks (env : Env) : Nat → St → ChangeEvent → St
  | 0, s, _ => { s with errFlag := true }
  | fuel + 1, s, e =>
      rcLoop env fuel { s with dispatches := s.dispatches ++ [e] } e 0

/-- One `for..of` step of `_runCallbacks`: find the next live slot, gate
    on the listener's condition (resolving `propertyPath` into `e.res` —
    an in-place mutation that persists for later listeners), invoke, and
    consume a pending `once` removal. -/
def rcLoop (env : Env) : Nat → St → ChangeEvent → Nat → St
  | 0, s, _, _ => { s with errFlag := true }
  | fuel + 1, s, e, i =>
      match findLive s.callbacks i with
      | none => s
      | some (j, cb) =>
          if (rcGate env s e cb).2 then
            rcLoop env fuel (rcInvoke env s cb (rcGate env s e cb).1)
              (rcGate env s e cb).1 (j + 1)
          else rcLoop env fuel s (rcGate env s e cb).1 (j + 1)
termination_by structural fuel _ _ _ => fuel

end

/-- `new Watchable(initialValue)` over a pre-existing heap holding the
    caller's initial value graph. -/
def mkWatchable (env : Env) (fuel : Nat) (h : List (Nat × HeapObj))
    (nxt : Nat) (init : JSVal) : St :=
  let s0 : St :=
    { heap := heapSet h nxt (.raw false [("value", init)]), next := nxt + 1,
      callbacks := [], toRemove := [], predicates := [], oldValue := JSVal.undef,
      proxyAddr := nxt, dispatches := [], invocations := [], errFlag := false }
  let r := deepProxy env fuel s0 nxt
  { r.1 with proxyAddr := r.2 }

/-- `set value(x)`: remember the old root, deep-wrap an object argument,
    and store through the root proxy (hence through its trap). -/
def valueSetter (env : Env) (fuel : Nat) (s : St) (x : JSVal) : St :=
  let s0 := { s with oldValue := rootVal s }
  match x with
  | .ref b =>
      let r := deepProxy env fuel s0 b
      assignField env fuel r.1 s.proxyAddr "value" (.ref r.2)
  | _ => assignField env fuel s0 s.proxyAddr "value" x

/-- The event the predicate/value `when` overloads are checked against. -/
def mkBasicEvent (s : St) : ChangeEvent :=
  { newValue := rootVal s, oldValue := s.oldValue, root := rootVal s,
    target := JSVal.undef, property := JSVal.undef, res := JSVal.undef }

/-- Immediate invocation of a callback by `when`. -/
def invokeDirect (env : Env) (s : St) (cb : JSVal) (e : ChangeEvent) : St :=
  invokeEffects env { s with invocations := s.invocations ++ [(cb, e)] } cb

/-- `when(predicateValueOrProp, callbackValueOrPredicate?, callback?)` —
    the single untyped implementation behind the four overloads.
    `Except.error` is the `throw` on line 206 of the source (and the
    `TypeError` a non-string path would raise in `matchAll`). -/
def whenCall (env : Env) (_fuel : Nat) (s : St) (a1 a2 a3 : JSVal) :
    Except String St :=
  if truthy a1 && truthy (rootVal s) && truthy a2 && truthy a3 then
    if !isObjType (rootVal s) then
      .error "Cannot use this when() overload when Watchable is not wrapping an object type"
    else
      match a1 with
      | .str p =>
          let vo := getNestedValue s p
          let e : ChangeEvent :=
            { newValue := vo.1, oldValue := s.oldValue,
              property := .str (lastSeg p), root := rootVal s,
              target := vo.2, res := vo.1 }
          match a2 with
          | .func pid =>
              if env.predSem pid e then .ok (invokeDirect env s a3 e)
              else .ok (addChangeListener s a3
                ⟨true, some ⟨some p, .extFn pid⟩⟩)
          | _ =>
              if jsEq a2 vo.1 then .ok (invokeDirect env s a3 e)
              else .ok (addChangeListener s a3
                ⟨true, some ⟨some p, .eqRes a2⟩⟩)
      | _ => .error "TypeError: predicateValueOrProp.matchAll is not a function"
  else
    match a1 with
    | .func pid =>
        let e := mkBasicEvent s
        if env.predSem pid e then .ok (invokeDirect env s a2 e)
        else .ok (addChangeListener s a2 ⟨true, some ⟨none, .extFn pid⟩⟩)
    | _ =>
        let e := mkBasicEvent s
        if jsEq a1 (rootVal s) then .ok (invokeDirect env s a2 e)
        else .ok (addChangeListener s a2 ⟨true, some ⟨none, .eqNew a1⟩⟩)

/-- `promiseWhen(predicateValueOrProp, value?)`: delegate to `when` with
    the promise's resolver (`.func rid`) as the callback; the
    `if (value)` truthiness test selects the overload. -/
def promiseWhenCall (env : Env) (fuel : Nat) (s : St) (a1 a2 : JSVal)
    (rid : Nat) : Except String St :=
  if truthy a2 then whenCall env fuel s a1 a2 (.func rid)
  else whenCall env fuel s a1 (.func rid) JSVal.undef

/-- A decimal digit as a character. -/
def digitChar : Nat → Char
  | 0 => '0'
  | 1 => '1'
  | 2 => '2'
  | 3 => '3'
  | 4 => '4'
  | 5 => '5'
  | 6 => '6'
  | 7 => '7'
  | 8 => '8'
  | _ => '9'

/-- Decimal digits of a `Nat` (for array index keys). -/
def natKeyGo : Nat → Nat → List Char
  | 0, _ => []
  | fuel + 1, n =>
      if n < 10 then [digitChar n]
      else natKeyGo fuel (n / 10) ++ [digitChar (n % 10)]

/-- Render a `Nat` as a JS property key. -/
def natKey (n : Nat) : String := String.mk (natKeyGo (n + 1) n)

/-- `Array.prototype.push(v)` on an observed array (ECMAScript: read
    `length`, `[[Set]]` the new index, `[[Set]]` `length` — both sets go
    through the proxy's trap). -/
def jsPush (env : Env) (fuel : Nat) (s : St) (a : Nat) (v : JSVal) : St :=
  let len : Nat := match getField s.heap a "length" with
    | .num n => n.toNat
    | _ => 0
  let s1 := trapSet env fuel s a (natKey len) v
  trapSet env fuel s1 a "length" (.num (len + 1))

/-- Extract a reference's address (0 for non-references). -/
def refAddr : JSVal → Nat
  | .ref a => a
  | _ => 0

/-- Live listener values from slot index `i` on, in insertion order. -/
def liveFrom (slots : List (JSVal × Bool)) (i : Nat) : List JSVal :=
  ((slots.drop i).filter (fun q => q.2)).map Prod.fst

/-- Whether a listener passes its gate for event `e` (no-path conditions). -/
def passes (env : Env) (preds : List (JSVal × PredData)) (e : ChangeEvent)
    (cb : JSVal) : Bool :=
  match predGet preds cb with
  | none => true
  | some cd => predApply env cd.predicate e

/-- Environment with no predicate semantics and effect-free callbacks. -/
def envTriv : Env := { predSem := fun _ _ => false, act := fun _ => [] }

/-- A `Watchable` constructed with no initial value (`value` is undefined). -/
def c1state : St := mkWatchable envTriv 20 [] 0 JSVal.undef

/-- A `Watchable` whose root is the primitive `5`. -/
def c1obj : St := mkWatchable envTriv 20 [] 0 (.num 5)

/-- A `Watchable` wrapping the object `{a: 5}` (heap address 0). -/
def c2base : St := mkWatchable envTriv 20 [(0, .raw false [("a", .num 5)])] 1 (.ref 0)

/-- `promiseWhen("a", 0)` on `c2base` (resolver id 3), then the mutation
    `w.value.a = "a"` that satisfies the predicate the call registered. -/
def c2pwRun : St :=
  let s := ((promiseWhenCall envTriv 20 c2base (.str "a") (.num 0) 3).toOption).getD c2base
  trapSet envTriv 20 s (refAddr (rootVal s)) "a" (.str "a")

/-- `when("a", 0, cb)` (callback id 9) on `c2base`, then the same mutation
    `w.value.a = "a"`. -/
def c2wRun : St :=
  let s := ((whenCall envTriv 20 c2base (.str "a") (.num 0) (.func 9)).toOption).getD c2base
  trapSet envTriv 20 s (refAddr (rootVal s)) "a" (.str "a")

/-- `promiseWhen(5)` on a `Watchable(1)` (resolver id 3), then
    `.value = 5`, `.value = 7`, `.value = 5`: the condition becomes true
    twice, but the resolver is a `once` listener. -/
def c2onceRun : St :=
  let s0 := mkWatchable envTriv 20 [] 0 (.num 1)
  let s1 := ((promiseWhenCall envTriv 20 s0 (.num 5) JSVal.undef 3).toOption).getD s0
  valueSetter envTriv 20 (valueSetter envTriv 20 (valueSetter envTriv 20 s1 (.num 5)) (.num 7)) (.num 5)

/-- Environment where callback 1 calls `removeChangeListener(func 2)`. -/
def envRemove2 : Env :=
  { predSem := fun _ _ => false,
    act := fun i => if i = 1 then [.remove (.func 2)] else [] }

/-- `Watchable(1)` with listeners `func 1` then `func 2` registered. -/
def c3base : St :=
  addChangeListener
    (addChangeListener (mkWatchable envRemove2 20 [] 0 (.num 1)) (.func 1)
      ⟨false, none⟩)
    (.func 2) ⟨false, none⟩

/-- Dispatch on `c3base` via `.value = 2`; callback 1 removes callback 2
    mid-dispatch. -/
def c3run : St := valueSetter envRemove2 20 c3base (.num 2)

/-- Environment for the P6 scenario: predicate 1 is `e => e.res >= 3`. -/
def envP6 : Env :=
  { predSem := fun i e =>
      if i = 1 then
        match e.res with
        | .num n => decide (3 ≤ n)
        | _ => false
      else false,
    act := fun _ => [] }

/-- Initial heap of `{q: {interests: ["a", "b"]}}`. -/
def c4heap : List (Nat × HeapObj) :=
  [(0, .raw true [("0", .str "a"), ("1", .str "b"), ("length", .num 2)]),
   (1, .raw false [("interests", .ref 0)]),
   (2, .raw false [("q", .ref 1)])]

/-- `Watchable({q: {interests: ["a", "b"]}})`. -/
def c4base : St := mkWatchable envP6 30 c4heap 3 (.ref 2)

/-- `when("q.interests.length", e => e.res >= 3, cb)` on `c4base`
    (callback id 9): `res` is 2, so the callback is registered. -/
def c4when : St :=
  ((whenCall envP6 30 c4base (.str "q.interests.length") (.func 1)
      (.func 9)).toOption).getD c4base

/-- Address of the observed `interests` array proxy inside `c4when`. -/
def c4arr : Nat :=
  refAddr (getField c4when.heap
    (refAddr (getField c4when.heap (refAddr (rootVal c4when)) "q")) "interests")

/-- `.value.q.interests.push("c")` on `c4when`. -/
def c4push : St := jsPush envP6 30 c4when c4arr (.str "c")

/-- `Watchable({a: 1})` with a plain listener `func 5`. -/
def c5base : St :=
  addChangeListener (mkWatchable envTriv 20 [(0, .raw false [("a", .num 1)])] 1 (.ref 0))
    (.func 5) ⟨false, none⟩

/-- The self-assignment `w.value = w.value` on `c5base`. -/
def c7run : St := valueSetter envTriv 20 c5base (rootVal c5base)

/-- `c5base` with a fresh, not yet observed empty object at address 4. -/
def c7wit : St :=
  { c5base with heap := c5base.heap ++ [(4, .raw false [])], next := 5 }

/-- `addChangeListener(cb, {once: true})` then
    `addChangeListener(cb, {once: false})` on a `Watchable(1)`. -/
def c6base : St :=
  addChangeListener
    (addChangeListener (mkWatchable envTriv 20 [] 0 (.num 1)) (.func 5)
      ⟨true, none⟩)
    (.func 5) ⟨false, none⟩

/-- Two mutations after the re-registration of `func 5`. -/
def c6run : St := valueSetter envTriv 20 (valueSetter envTriv 20 c6base (.num 2)) (.num 3)

/-- Environment whose predicate 1 is `e => e.newValue === 5`. -/
def envEq5 : Env :=
  { predSem := fun i e => if i = 1 then jsEq e.newValue (.num 5) else false,
    act := fun _ => [] }

/-- `Watchable(5)`: predicate 1 already holds. -/
def c8hold : St := mkWatchable envEq5 20 [] 0 (.num 5)

/-- `Watchable(1)`: predicate 1 does not hold yet. -/
def c8wait : St := mkWatchable envEq5 20 [] 0 (.num 1)

/-- Heap for the C10 witness: an empty leaf object at 0 and the caller's
    object `{x: (ref 0), y: 7}` at 1. -/
def c10heap : List (Nat × HeapObj) :=
  [(0, .raw false []), (1, .raw false [("x", .ref 0), ("y", .num 7)])]

/-- A bare state holding `c10heap` (no listeners, nothing observed yet). -/
def c10state : St :=
  { heap := c10heap, next := 2, callbacks := [], toRemove := [],
    predicates := [], oldValue := JSVal.undef, proxyAddr := 0, dispatches := [],
    invocations := [], errFlag := false }

/-- The self-assignment `w.value = w.value` on `c5base` (same run as the
    double-wrapping scenario, observed through the listener log). -/
def c5run : St := valueSetter envTriv 20 c5base (rootVal c5base)

/-- `Watchable(1)` with effect-free listeners `func 1` and `func 2`. -/
def c3pure : St :=
  addChangeListener
    (addChangeListener (mkWatchable envTriv 20 [] 0 (.num 1)) (.func 1)
      ⟨false, none⟩)
    (.func 2) ⟨false, none⟩

/-- A sample change event for exercising dispatch directly. -/
def eSample : ChangeEvent :=
  { newValue := .num 2, oldValue := .num 1, root := .num 2,
    target := JSVal.undef, property := .str "value", res := JSVal.undef }

/-- Environment where callback 1 calls
    `addChangeListener(func 3, {once: false})`. -/
def envAdd3 : Env :=
  { predSem := fun _ _ => false,
    act := fun i => if i = 1 then [.add (.func 3) ⟨false, none⟩] else [] }

/-- `Watchable(1)` with listeners `func 1` then `func 2` registered
    (`func 3` not registered). -/
def c3addBase : St :=
  addChangeListener
    (addChangeListener (mkWatchable envAdd3 20 [] 0 (.num 1)) (.func 1)
      ⟨false, none⟩)
    (.func 2) ⟨false, none⟩

/-- Dispatch on `c3addBase` via `.value = 2`; callback 1 registers
    callback 3 mid-dispatch. -/
def c3addRun : St := valueSetter envAdd3 20 c3addBase (.num 2)

lemma predGet_predSet_self (ps : List (JSVal × PredData)) (v : JSVal)
    (d : PredData) : predGet (predSet ps v d) v = some d := by
  induction ps with
  | nil => simp [predSet, predGet]
  | cons hd tl ih =>
      by_cases h : hd.1 = v
      · simp [predSet, predGet, h]
      · cases hd
        simp_all [predSet, predGet, h]

lemma mem_addUnique (l : List JSVal) (v w : JSVal) :
    w ∈ addUnique l v ↔ (w ∈ l ∨ w = v) := by
  by_cases h : v ∈ l
  · have hc : l.contains v = true := by simpa using h
    simp only [addUnique, hc, if_true]
    constructor
    · exact Or.inl
    · rintro (h1 | rfl)
      · exact h1
      · exact h
  · have hc : l.contains v = false := by simpa using h
    simp only [addUnique, hc, Bool.false_eq_true, if_false, List.mem_append,
      List.mem_singleton]

/-- C1.  The claim (three-argument `when` on a non-object root always
    throws and registers nothing) is false: on a Watchable whose root is
    `undefined` (falsy), `when("a", 1, cb)` returns normally and falls
    through to the value-overload logic, registering the middle argument
    `1` as a listener. -/
theorem C1_counterexample :
    (whenCall envTriv 20 c1state (.str "a") (.num 1) (.func 7)).toOption.map
      (fun s => s.callbacks) = some [(JSVal.num 1, true)] := by decide

/-- C1 (amended).  The three-argument overload throws — synchronously,
    before anything is registered (the error return carries no state) —
    exactly when the current root value is truthy and not of object type
    and the path, value-or-predicate and callback arguments are all
    truthy; a falsy root instead silently falls through to the
    value-overload logic. -/
theorem C1_amended (env : Env) (fuel : Nat) (s : St) (p : String)
    (a2 a3 : JSVal) (hp : p ≠ "") (hr : truthy (rootVal s) = true)
    (hnr : isObjType (rootVal s) = false) (h2 : truthy a2 = true)
    (h3 : truthy a3 = true) :
    whenCall env fuel s (.str p) a2 a3 =
      .error "Cannot use this when() overload when Watchable is not wrapping an object type" := by
  have h1 : truthy (.str p) = true := by simp [truthy, hp]
  unfold whenCall
  rw [h1, hr, h2, h3]
  simp [hnr]

/-- C1 witness: a Watchable holding the primitive `5` does throw. -/
theorem C1_witness :
    whenCall envTriv 20 c1obj (.str "a") (.num 1) (.func 7) =
      .error "Cannot use this when() overload when Watchable is not wrapping an object type" :=
  C1_amended envTriv 20 c1obj "a" (.num 1) (.func 7) (by decide) (by decide)
    (by decide) (by decide) (by decide)

/-- C2.  The claim (promiseWhen always mirrors the corresponding `when`)
    is false for a falsy middle argument: on `{a: 5}`,
    `promiseWhen("a", 0)` registers its resolver under the two-argument
    value overload (predicate `newValue === "a"`), so the mutation
    `w.value.a = "a"` resolves it — while the corresponding
    `when("a", 0, cb)` never registers `cb` at all (it registers the value
    `0` as a listener instead), so `cb` is not invoked at that moment. -/
theorem C2_counterexample :
    (c2pwRun.invocations.map Prod.fst).contains (JSVal.func 3) = true ∧
    (c2wRun.invocations.map Prod.fst).contains (JSVal.func 9) = false ∧
    setMem c2wRun.callbacks (.func 9) = false := by decide

/-- C2 (amended).  When the second argument is truthy or absent,
    `promiseWhen` performs exactly the `when` call with its resolver
    appended as the callback (so the handle resolves precisely when that
    `when` would invoke its callback); and the resolver is registered as a
    `once` listener, so it fires at most once even when the condition
    becomes true repeatedly (closing run `c2onceRun`). -/
theorem C2_amended (env : Env) (fuel : Nat) (s : St) (a1 a2 : JSVal)
    (rid : Nat) (h : truthy a2 = true) :
    promiseWhenCall env fuel s a1 a2 rid = whenCall env fuel s a1 a2 (.func rid) ∧
    promiseWhenCall env fuel s a1 JSVal.undef rid =
      whenCall env fuel s a1 (.func rid) JSVal.undef ∧
    (c2onceRun.invocations.filter (fun q => q.1 == JSVal.func 3)).length = 1 := by
  refine ⟨?_, ?_, ?_⟩
  · simp [promiseWhenCall, h]
  · simp [promiseWhenCall, truthy]
  · decide

/-- C2 witness: with the truthy value `1` the delegation is exact. -/
theorem C2_witness :
    truthy (JSVal.num 1) = true ∧
    promiseWhenCall envTriv 5 c2base (.str "a") (.num 1) 3 =
      whenCall envTriv 5 c2base (.str "a") (.num 1) (.func 3) :=
  ⟨by decide, (C2_amended envTriv 5 c2base (.str "a") (.num 1) 3 (by decide)).1⟩

/-- C4.  The claim (push produces exactly two dispatches: index write then
    length write) is false: pushing `"c"` onto the observed
    `{q: {interests: ["a","b"]}}` produces exactly one dispatch — the
    native index store has already advanced the array's `length`, so the
    trap suppresses push's subsequent length write (`oldValue === v`). -/
theorem C4_counterexample :
    c4push.dispatches.length = 1 ∧ c4push.errFlag = false := by decide

/-- C4 (amended).  A push of one element dispatches exactly once, for the
    new-index write; at that dispatch the length is already updated, so
    the P6 listener gated on `q.interests.length >= 3` fires exactly once
    with `res = 3` and, being a `once` listener, is then removed. -/
theorem C4_amended :
    c4push.dispatches.map (fun e => (e.property, e.newValue)) =
      [(JSVal.str "2", JSVal.str "c")] ∧
    getField c4push.heap c4arr "length" = .num 3 ∧
    c4push.invocations.map (fun q => (q.1, q.2.res)) =
      [(JSVal.func 9, JSVal.num 3)] ∧
    setMem c4push.callbacks (.func 9) = false := by decide

/-- C5.  The claim (assigning the value already held never invokes
    listeners) is false for an object root: `w.value = w.value` on
    `Watchable({a: 1})` re-wraps the current value in fresh proxies, so
    the trap sees a different reference and dispatches — the listener
    fires. -/
theorem C5_counterexample :
    c5run.invocations.map Prod.fst = [JSVal.func 5] := by decide

/-- C5 (amended).  Identity-suppression does hold at the trap level: a
    write through any observed slot whose target already holds the same
    value only records `oldValue` and dispatches nothing; likewise the
    root setter with a primitive equal to the current root value.  Only
    assigning the current object value through the root setter (which
    re-wraps first) escapes the suppression. -/
theorem C5_amended :
    (∀ (env : Env) (fuel : Nat) (s : St) (a t : Nat) (k : String) (v : JSVal),
        heapGet s.heap a = some (.proxy t) → getField s.heap t k = v →
        trapSet env (fuel + 1) s a k v = { s with oldValue := v }) ∧
    (∀ (env : Env) (fuel : Nat) (s : St) (t : Nat) (x : JSVal),
        heapGet s.heap s.proxyAddr = some (.proxy t) → isObjRef x = false →
        getField s.heap t "value" = x →
        valueSetter env (fuel + 2) s x = { s with oldValue := x }) := by
  constructor
  · intro env fuel s a t k v ha hv
    unfold trapSet
    simp [ha, hv, jsEq]
  · intro env fuel s t x hpx hobj hold
    cases x with
    | ref b => simp [isObjRef] at hobj
    | undef => simp [valueSetter, assignField, trapSet, hpx, hold, jsEq]
    | null => simp [valueSetter, assignField, trapSet, hpx, hold, jsEq]
    | bool b => simp [valueSetter, assignField, trapSet, hpx, hold, jsEq]
    | num n => simp [valueSetter, assignField, trapSet, hpx, hold, jsEq]
    | str q => simp [valueSetter, assignField, trapSet, hpx, hold, jsEq]
    | func f => simp [valueSetter, assignField, trapSet, hpx, hold, jsEq]

/-- C5 witness: the no-op nested write `w.value.a = 1` on `c5base` is
    fully suppressed. -/
theorem C5_witness :
    heapGet c5base.heap 2 = some (.proxy 0) ∧
    trapSet envTriv 8 c5base 2 "a" (.num 1) = { c5base with oldValue := .num 1 } :=
  ⟨by decide,
    C5_amended.1 envTriv 7 c5base 2 0 "a" (.num 1) (by decide) (by decide)⟩

/-- C6.  The claim (re-registration replaces the earlier options) is
    false: after `addChangeListener(cb, {once: true})` then
    `addChangeListener(cb, {once: false})`, the pending-removal mark from
    the first call survives, so across two mutations the listener fires
    once and is then auto-removed — under the claim it would fire twice
    and stay registered. -/
theorem C6_counterexample :
    c6base.toRemove = [JSVal.func 5] ∧
    c6run.invocations.map Prod.fst = [JSVal.func 5] ∧
    setMem c6run.callbacks (.func 5) = false := by decide

/-- C6 (amended).  Re-registration accumulates rather than replaces: the
    effective `once` flag is the disjunction of the two registrations'
    flags (a `true` is never cleared), and the effective condition is the
    later call's condition when supplied, else the earlier one (an absent
    condition does not clear a previous one). -/
theorem C6_amended (s : St) (cb : JSVal) (o1 o2 : WatchOptions)
    (h1 : cb ∉ s.toRemove) (h2 : predGet s.predicates cb = none) :
    ((cb ∈ (addChangeListener (addChangeListener s cb o1) cb o2).toRemove) ↔
        (o1.once || o2.once) = true) ∧
    (predGet (addChangeListener (addChangeListener s cb o1) cb o2).predicates cb
        = o2.condition.orElse (fun _ => o1.condition)) := by
  obtain ⟨b1, c1⟩ := o1
  obtain ⟨b2, c2⟩ := o2
  constructor
  · cases b1 <;> cases b2 <;>
      simp [addChangeListener, mem_addUnique, h1]
  · cases c2 with
    | some d2 =>
        cases c1 <;>
          simp [addChangeListener, predGet_predSet_self, Option.orElse]
    | none =>
        cases c1 with
        | some d1 =>
            simp [addChangeListener, predGet_predSet_self, Option.orElse]
        | none => simp [addChangeListener, h2, Option.orElse]

/-- C6 witness: `{once: true}` then `{once: false}` leaves the listener
    marked for one-shot removal with no condition. -/
theorem C6_witness :
    ((JSVal.func 5) ∈ c6base.toRemove) ∧
    (predGet c6base.predicates (.func 5) = none) := by
  have h := C6_amended (mkWatchable envTriv 20 [] 0 (.num 1)) (.func 5)
    ⟨true, none⟩ ⟨false, none⟩ (by decide) (by decide)
  exact ⟨h.1.mpr (by decide), h.2⟩

/-- C7.  The claim (reachable values are instrumented at most once) is
    false: after `w.value = w.value` on `Watchable({a: 1})`, the current
    root value is a proxy over a proxy over a proxy over the raw object —
    three observation layers on one value. -/
theorem C7_counterexample :
    rootVal c7run = .ref 5 ∧
    heapGet c7run.heap 5 = some (.proxy 4) ∧
    heapGet c7run.heap 4 = some (.proxy 2) ∧
    heapGet c7run.heap 2 = some (.proxy 0) ∧
    heapGet c7run.heap 0 = some (.raw false [("a", JSVal.num 1)]) := by decide

lemma resolveKeys_recover (h : List (Nat × HeapObj)) :
    ∀ (ks : List String) (v obj : JSVal),
      resolveKeys h ks v obj =
        (match resolveKeysE h ks v obj with
         | .ok r => r
         | .error ob => (JSVal.undef, ob)) := by
  intro ks
  induction ks with
  | nil => intro v obj; rfl
  | cons k ks ih =>
      intro v obj
      simp only [resolveKeys, resolveKeysE]
      cases hi : indexVal h v k with
      | ok v' => simp [hi, ih]
      | error u => simp [hi]

lemma resolveKeys_undef (h : List (Nat × HeapObj)) (ks : List String)
    (obj : JSVal) : (resolveKeys h ks JSVal.undef obj).1 = JSVal.undef := by
  cases ks with
  | nil => rfl
  | cons k ks => rfl

lemma resolveKeys_miss (h : List (Nat × HeapObj)) :
    ∀ (ks : List String) (v obj : JSVal), hasMiss h ks v = true →
      (resolveKeys h ks v obj).1 = JSVal.undef := by
  intro ks
  induction ks with
  | nil => intro v obj hm; simp [hasMiss] at hm
  | cons k ks ih =>
      intro v obj hm
      simp only [hasMiss] at hm
      cases hi : indexVal h v k with
      | error u => simp [resolveKeys, hi]
      | ok v' =>
          rw [hi] at hm
          simp only [resolveKeys, hi]
          rcases (Bool.or_eq_true _ _).mp hm with he | hr
          · have : v' = JSVal.undef := by simpa [jsEq] using he
            subst this
            exact resolveKeys_undef h ks _
          · exact ih v' _ hr

/-- C3.  The claim (dispatch always covers the listeners registered at
    dispatch start) is false: with listeners `func 1` and `func 2`
    registered, `func 1` calling `removeChangeListener(func 2)` during the
    dispatch of `.value = 2` makes the live-set iteration skip `func 2`
    for that same event. -/
theorem C3_counterexample :
    setMem c3base.callbacks (.func 2) = true ∧
    c3run.invocations.map Prod.fst = [JSVal.func 1] := by decide

/-- C8.  `when(predicateFn, callback)` evaluates the predicate on
    `{newValue: current, oldValue, root: current}` (`mkBasicEvent`); if
    truthy, the callback is invoked synchronously with exactly that event
    and the listener registry is untouched (no persistent listener);
    otherwise the callback is registered exactly as a `once` listener
    gated by the predicate with no property path. -/
theorem C8_theorem (env : Env) (fuel : Nat) (s : St) (pid cid : Nat)
    (hact : env.act cid = []) :
    (env.predSem pid (mkBasicEvent s) = true →
      whenCall env fuel s (.func pid) (.func cid) JSVal.undef =
        .ok { s with invocations := s.invocations ++ [(.func cid, mkBasicEvent s)] }) ∧
    (env.predSem pid (mkBasicEvent s) = false →
      whenCall env fuel s (.func pid) (.func cid) JSVal.undef =
        .ok (addChangeListener s (.func cid) ⟨true, some ⟨none, .extFn pid⟩⟩)) := by
  constructor
  · intro hp
    unfold whenCall
    simp [truthy, hp, invokeDirect, invokeEffects, applyActs, hact]
  · intro hp
    unfold whenCall
    simp [truthy, hp]

/-- C8 witness: on a Watchable already holding 5,
    `when(e => e.newValue === 5, cb)` fires `cb` synchronously with the
    current-value event and registers nothing. -/
theorem C8_witness :
    envEq5.predSem 1 (mkBasicEvent c8hold) = true ∧
    whenCall envEq5 5 c8hold (.func 1) (.func 9) JSVal.undef =
      .ok { c8hold with
              invocations := c8hold.invocations ++ [(.func 9, mkBasicEvent c8hold)] } :=
  ⟨by decide, (C8_theorem envEq5 5 c8hold 1 9 rfl).1 (by decide)⟩

/-- C9.  Path resolution never throws to the caller: `_getNestedValue` is
    the `try` body (`resolveKeysE`) with its catch recovering a thrown
    lookup as `undefined` while the parent pointer keeps its last
    successful position; and whenever some step of the path misses (the
    read throws, or yields `undefined` for an absent key or non-indexable
    intermediate value) the resolved value is `undefined` — predicates then
    receive that `undefined` through `e.res` as an ordinary value. -/
theorem C9_theorem (s : St) (p : String) :
    getNestedValue s p =
      (match resolveKeysE s.heap (parsePath p) (rootVal s) (.ref s.proxyAddr) with
       | .ok r => r
       | .error ob => (JSVal.undef, ob)) ∧
    (hasMiss s.heap (parsePath p) (rootVal s) = true →
      (getNestedValue s p).1 = JSVal.undef) := by
  constructor
  · exact resolveKeys_recover s.heap (parsePath p) _ _
  · intro hm
    exact resolveKeys_miss s.heap (parsePath p) _ _ hm

/-- C9 witness: on `{a: 5}` the path `a.b.c` misses (indexing into the
    primitive `5`, then into `undefined`) and resolves to `undefined`. -/
theorem C9_witness :
    hasMiss c2base.heap (parsePath "a.b.c") (rootVal c2base) = true ∧
    (getNestedValue c2base "a.b.c").1 = JSVal.undef :=
  ⟨by decide, (C9_theorem c2base "a.b.c").2 (by decide)⟩

lemma heapGet_heapSet_self : ∀ (h : List (Nat × HeapObj)) (a : Nat) (o : HeapObj),
    heapGet (heapSet h a o) a = some o := by
  intro h
  induction h with
  | nil => intro a o; simp [heapSet, heapGet]
  | cons hd tl ih =>
      intro a o
      cases hd with
      | mk a' o' =>
          by_cases hh : a' = a
          · simp [heapSet, heapGet, hh]
          · simp [heapSet, heapGet, hh, ih]

lemma heapGet_heapSet_ne : ∀ (h : List (Nat × HeapObj)) (a b : Nat) (o : HeapObj),
    a ≠ b → heapGet (heapSet h a o) b = heapGet h b := by
  intro h
  induction h with
  | nil => intro a b o hab; simp [heapSet, heapGet, hab]
  | cons hd tl ih =>
      intro a b o hab
      cases hd with
      | mk a' o' =>
          by_cases hh : a' = a
          · subst hh
            simp [heapSet, heapGet, hab]
          · simp [heapSet, heapGet, hh, ih _ _ _ hab]

lemma lookup_assocSet_self : ∀ (fs : List (String × JSVal)) (k : String) (v : JSVal),
    (assocSet fs k v).lookup k = some v := by
  intro fs
  induction fs with
  | nil => intro k v; simp [assocSet, List.lookup]
  | cons hd tl ih =>
      intro k v
      cases hd with
      | mk k' v' =>
          by_cases hh : k' = k
          · simp [assocSet, hh, List.lookup]
          · have hkk : (k == k') = false :=
              beq_eq_false_iff_ne.mpr (fun h => hh h.symm)
            simp [assocSet, hh, List.lookup, hkk, ih]

lemma applyActs_frame : ∀ (ops : List RegOp) (s : St),
    (applyActs s ops).heap = s.heap ∧ (applyActs s ops).next = s.next ∧
    (applyActs s ops).invocations = s.invocations ∧
    (applyActs s ops).proxyAddr = s.proxyAddr ∧
    (applyActs s ops).dispatches = s.dispatches ∧
    (applyActs s ops).oldValue = s.oldValue := by
  intro ops
  induction ops with
  | nil => intro s; exact ⟨rfl, rfl, rfl, rfl, rfl, rfl⟩
  | cons op rest ih =>
      intro s
      cases op with
      | add cb o =>
          simp only [applyActs]
          exact ih (addChangeListener s cb o)
      | remove cb =>
          simp only [applyActs]
          exact ih (removeChangeListener s cb)

lemma invokeEffects_frame (env : Env) (s : St) (cb : JSVal) :
    (invokeEffects env s cb).heap = s.heap ∧ (invokeEffects env s cb).next = s.next ∧
    (invokeEffects env s cb).invocations = s.invocations ∧
    (invokeEffects env s cb).proxyAddr = s.proxyAddr ∧
    (invokeEffects env s cb).dispatches = s.dispatches ∧
    (invokeEffects env s cb).oldValue = s.oldValue := by
  cases cb with
  | func n => simpa only [invokeEffects] using applyActs_frame (env.act n) s
  | undef => exact ⟨rfl, rfl, rfl, rfl, rfl, rfl⟩
  | null => exact ⟨rfl, rfl, rfl, rfl, rfl, rfl⟩
  | bool b => exact ⟨rfl, rfl, rfl, rfl, rfl, rfl⟩
  | num n => exact ⟨rfl, rfl, rfl, rfl, rfl, rfl⟩
  | str q => exact ⟨rfl, rfl, rfl, rfl, rfl, rfl⟩
  | ref a => exact ⟨rfl, rfl, rfl, rfl, rfl, rfl⟩

lemma rcInvoke_frame (env : Env) (s : St) (cb : JSVal) (e1 : ChangeEvent) :
    (rcInvoke env s cb e1).heap = s.heap ∧
    (rcInvoke env s cb e1).next = s.next ∧
    (rcInvoke env s cb e1).proxyAddr = s.proxyAddr := by
  have h1 := invokeEffects_frame env
    { s with invocations := s.invocations ++ [(cb, e1)] } cb
  unfold rcInvoke
  dsimp only
  split
  · exact ⟨h1.1, h1.2.1, h1.2.2.2.1⟩
  · exact ⟨h1.1, h1.2.1, h1.2.2.2.1⟩

lemma rcLoop_frame (env : Env) : ∀ (fuel : Nat) (s : St) (e : ChangeEvent) (i : Nat),
    (rcLoop env fuel s e i).heap = s.heap ∧
    (rcLoop env fuel s e i).next = s.next ∧
    (rcLoop env fuel s e i).proxyAddr = s.proxyAddr := by
  intro fuel
  induction fuel with
  | zero => intro s e i; exact ⟨rfl, rfl, rfl⟩
  | succ fuel ih =>
      intro s e i
      rw [rcLoop]
      cases hf : findLive s.callbacks i with
      | none => exact ⟨rfl, rfl, rfl⟩
      | some jc =>
          obtain ⟨j, cb⟩ := jc
          dsimp only
          split
          · have h1 := rcInvoke_frame env s cb (rcGate env s e cb).1
            have h2 := ih (rcInvoke env s cb (rcGate env s e cb).1)
              (rcGate env s e cb).1 (j + 1)
            exact ⟨h2.1.trans h1.1, h2.2.1.trans h1.2.1, h2.2.2.trans h1.2.2⟩
          · exact ih s (rcGate env s e cb).1 (j + 1)

lemma runCallbacks_frame (env : Env) (fuel : Nat) (s : St) (e : ChangeEvent) :
    (runCallbacks env fuel s e).heap = s.heap ∧
    (runCallbacks env fuel s e).next = s.next ∧
    (runCallbacks env fuel s e).proxyAddr = s.proxyAddr := by
  cases fuel with
  | zero => exact ⟨rfl, rfl, rfl⟩
  | succ fuel =>
      rw [runCallbacks]
      exact rcLoop_frame env fuel { s with dispatches := s.dispatches ++ [e] } e 0

lemma deepProxy_leaf (env : Env) (fuel : Nat) (s : St) (b : Nat) (ar : Bool)
    (hb : heapGet s.heap b = some (.raw ar [])) :
    deepProxy env (fuel + 1) s b =
      ({ s with heap := heapSet s.heap s.next (.proxy b), next := s.next + 1 },
        s.next) := by
  have he : entriesOf s.heap b = [] := by simp [entriesOf, entriesOfF, hb]
  rw [deepProxy, he]
  simp [dpLoop]

lemma getField_raw (h : List (Nat × HeapObj)) (a : Nat) (ar : Bool)
    (fs : List (String × JSVal)) (ha : heapGet h a = some (.raw ar fs))
    (k : String) : getField h a k = (fs.lookup k).getD JSVal.undef := by
  simp [getField, getFieldF, ha]

/-- C7 (amended).  A fresh, never-observed object (raw, no fields) written
    into an observed slot is instrumented exactly once: the slot ends up
    holding one new proxy whose target is the caller's object, and the
    caller's object itself stays raw, with no second layer. -/
theorem C7_amended (env : Env) (fuel : Nat) (s : St) (a t b : Nat)
    (k : String) (tfs : List (String × JSVal)) (arb : Bool)
    (ha : heapGet s.heap a = some (.proxy t))
    (ht : heapGet s.heap t = some (.raw false tfs))
    (hb : heapGet s.heap b = some (.raw arb []))
    (htn : t < s.next) (hbn : b < s.next) (hbt : b ≠ t)
    (hold : jsEq (getField s.heap t k) (.ref b) = false) :
    getField (trapSet env (fuel + 2) s a k (.ref b)).heap t k = .ref s.next ∧
    heapGet (trapSet env (fuel + 2) s a k (.ref b)).heap s.next =
      some (.proxy b) ∧
    heapGet (trapSet env (fuel + 2) s a k (.ref b)).heap b =
      some (.raw arb []) := by
  have hne : s.next ≠ t := fun hh => absurd (hh ▸ htn) (lt_irrefl t)
  have hbne : b ≠ s.next := Nat.ne_of_lt hbn
  rw [trapSet]
  simp only [ha, hold, Bool.false_eq_true, if_false]
  rw [deepProxy_leaf env fuel
    { s with oldValue := getField s.heap t k } b arb hb]
  rw [assignField]
  rw [heapGet_heapSet_ne _ _ _ _ hne, ht]
  rw [(runCallbacks_frame env _ _ _).1]
  refine ⟨?_, ?_, ?_⟩
  · rw [getField_raw _ t false _ (heapGet_heapSet_self _ t _) k]
    simp [rawStoreFields, lookup_assocSet_self]
  · rw [heapGet_heapSet_ne _ _ _ _ (Ne.symm hne)]
    exact heapGet_heapSet_self _ _ _
  · rw [heapGet_heapSet_ne _ _ _ _ (Ne.symm hbt)]
    rw [heapGet_heapSet_ne _ _ _ _ (Ne.symm hbne)]
    exact hb

/-- C7 witness: writing the fresh empty object at address 4 into slot
    `b` of the observed `{a: 1}` wraps it exactly once. -/
theorem C7_witness :
    getField (trapSet envTriv 20 c7wit 2 "b" (.ref 4)).heap 0 "b" =
      .ref c7wit.next ∧
    heapGet (trapSet envTriv 20 c7wit 2 "b" (.ref 4)).heap c7wit.next =
      some (.proxy 4) ∧
    heapGet (trapSet envTriv 20 c7wit 2 "b" (.ref 4)).heap 4 =
      some (.raw false []) :=
  C7_amended envTriv 18 c7wit 2 0 4 "b" [("a", JSVal.num 1)] false
    (by decide) (by decide) (by decide) (by decide) (by decide) (by decide)
    (by decide)

lemma lookup_assocSet_ne : ∀ (fs : List (String × JSVal)) (k0 k : String)
    (v : JSVal), k ≠ k0 → (assocSet fs k0 v).lookup k = fs.lookup k := by
  intro fs
  induction fs with
  | nil =>
      intro k0 k v hk
      have hkk : (k == k0) = false := beq_eq_false_iff_ne.mpr hk
      simp [assocSet, List.lookup, hkk]
  | cons hd tl ih =>
      intro k0 k v hk
      cases hd with
      | mk k' v' =>
          by_cases hh : k' = k0
          · subst hh
            have hkk : (k == k') = false := beq_eq_false_iff_ne.mpr hk
            simp [assocSet, List.lookup, hkk]
          · simp [assocSet, hh, List.lookup, ih _ _ _ hk]

lemma rawStoreFields_plain (fs : List (String × JSVal)) (k : String)
    (v : JSVal) : rawStoreFields false fs k v = assocSet fs k v := by
  simp [rawStoreFields]

lemma dpLoop_nil (env : Env) (fuel : Nat) (s : St) (a : Nat) :
    dpLoop env fuel s a [] = s := by
  cases fuel <;> rfl

lemma dpLoop_skip (env : Env) (fuel : Nat) (s : St) (a : Nat) (k0 : String)
    (v0 : JSVal) (rest : List (String × JSVal))
    (h : ∀ b, v0 ≠ JSVal.ref b) :
    dpLoop env (fuel + 1) s a ((k0, v0) :: rest) = dpLoop env fuel s a rest := by
  cases v0 <;> first | rfl | exact absurd rfl (h _)

lemma dpLoop_plain (env : Env) :
    ∀ (rest : List (String × JSVal)) (fuel : Nat) (s : St) (a : Nat)
      (cur : List (String × JSVal)),
      heapGet s.heap a = some (.raw false cur) →
      (rest.map Prod.fst).Nodup →
      (∀ k b, (k, JSVal.ref b) ∈ rest →
        b ≠ a ∧ b < s.next ∧ ∃ arb, heapGet s.heap b = some (.raw arb [])) →
      a < s.next →
      (∀ c, s.next ≤ c → heapGet s.heap c = none) →
      rest.length < fuel →
      ∃ cur',
        heapGet (dpLoop env fuel s a rest).heap a = some (.raw false cur') ∧
        s.next ≤ (dpLoop env fuel s a rest).next ∧
        (∀ c, (dpLoop env fuel s a rest).next ≤ c →
          heapGet (dpLoop env fuel s a rest).heap c = none) ∧
        (∀ c, c ≠ a → c < s.next →
          heapGet (dpLoop env fuel s a rest).heap c = heapGet s.heap c) ∧
        (∀ k, k ∉ rest.map Prod.fst → cur'.lookup k = cur.lookup k) ∧
        (∀ k b, (k, JSVal.ref b) ∈ rest →
          ∃ p, cur'.lookup k = some (.ref p) ∧
            heapGet (dpLoop env fuel s a rest).heap p = some (.proxy b)) := by
  intro rest
  induction rest with
  | nil =>
      intro fuel s a cur ha hnd hleaf han hclean hfuel
      rw [dpLoop_nil]
      exact ⟨cur, ha, le_refl _, hclean, fun c _ _ => rfl, fun k _ => rfl,
        fun k b hm => absurd hm (List.not_mem_nil _)⟩
  | cons hd rest' ih =>
      intro fuel s a cur ha hnd hleaf han hclean hfuel
      obtain ⟨k0, v0⟩ := hd
      cases fuel with
      | zero => omega
      | succ f =>
      cases f with
      | zero => simp at hfuel
      | succ f1 =>
      have hnd' : k0 ∉ rest'.map Prod.fst ∧ (rest'.map Prod.fst).Nodup := by
        rw [List.map_cons] at hnd
        exact List.nodup_cons.mp hnd
      have hndt := hnd'.2
      have hk0 := hnd'.1
      cases hv0 : v0
      case ref b0 =>
          subst hv0
          obtain ⟨hb0a, hb0n, arb0, hb0⟩ :=
            hleaf k0 b0 (List.mem_cons_self _ _)
          have hanne : a ≠ s.next := Nat.ne_of_lt han
          rw [dpLoop]
          rw [deepProxy_leaf env f1 s b0 arb0 hb0]
          dsimp only
          rw [assignField]
          rw [heapGet_heapSet_ne _ _ _ _ (Ne.symm hanne), ha]
          dsimp only
          set s2 : St :=
            { s with
                heap := heapSet (heapSet s.heap s.next (.proxy b0)) a
                  (.raw false (rawStoreFields false cur k0 (.ref s.next))),
                next := s.next + 1 } with hs2
          have h2n : s2.next = s.next + 1 := by rw [hs2]
          have ha2 : heapGet s2.heap a =
              some (.raw false (assocSet cur k0 (.ref s.next))) := by
            rw [hs2]
            simp [heapGet_heapSet_self, rawStoreFields_plain]
          have hleaf2 : ∀ k b, (k, JSVal.ref b) ∈ rest' →
              b ≠ a ∧ b < s2.next ∧
                ∃ arb, heapGet s2.heap b = some (.raw arb []) := by
            intro k b hm
            obtain ⟨hba, hbn, arb, hbx⟩ :=
              hleaf k b (List.mem_cons_of_mem _ hm)
            refine ⟨hba, ?_, arb, ?_⟩
            · rw [h2n]; exact Nat.lt_succ_of_lt hbn
            · rw [hs2]
              dsimp only
              rw [heapGet_heapSet_ne _ _ _ _ (Ne.symm hba),
                heapGet_heapSet_ne _ _ _ _ (Ne.symm (Nat.ne_of_lt hbn))]
              exact hbx
          have han2 : a < s2.next := by rw [h2n]; exact Nat.lt_succ_of_lt han
          have hclean2 : ∀ c, s2.next ≤ c → heapGet s2.heap c = none := by
            intro c hc
            rw [h2n] at hc
            have hca : a ≠ c := by omega
            have hcn : s.next ≠ c := by omega
            rw [hs2]
            dsimp only
            rw [heapGet_heapSet_ne _ _ _ _ hca, heapGet_heapSet_ne _ _ _ _ hcn]
            exact hclean c (by omega)
          have hfl2 : rest'.length < f1 + 1 := by
            simp at hfuel; omega
          obtain ⟨cur'', hC1, hC2, hC3, hC4, hC5, hC6⟩ :=
            ih (f1 + 1) s2 a (assocSet cur k0 (.ref s.next)) ha2 hndt hleaf2
              han2 hclean2 hfl2
          refine ⟨cur'', hC1, ?_, hC3, ?_, ?_, ?_⟩
          · omega
          · intro c hca hcn
            have h4 := hC4 c hca (by rw [h2n]; exact Nat.lt_succ_of_lt hcn)
            rw [h4, hs2]
            dsimp only
            rw [heapGet_heapSet_ne _ _ _ _ (Ne.symm hca),
              heapGet_heapSet_ne _ _ _ _ (Ne.symm (Nat.ne_of_lt hcn))]
          · intro k hk
            have hkk0 : k ≠ k0 := by
              intro hh; exact hk (by simp [hh])
            have hkr : k ∉ rest'.map Prod.fst := by
              intro hh; exact hk (by simp [hh])
            rw [hC5 k hkr, lookup_assocSet_ne _ _ _ _ hkk0]
          · intro k b hm
            rcases List.mem_cons.mp hm with hh | hm'
            · have h1 : k = k0 := congrArg Prod.fst hh
              have h2 : b = b0 := by
                have h3 := congrArg Prod.snd hh
                simpa using h3
              subst h1
              subst h2
              refine ⟨s.next, ?_, ?_⟩
              · rw [hC5 k hk0]
                exact lookup_assocSet_self _ _ _
              · have h4 := hC4 s.next (Ne.symm hanne)
                  (by rw [h2n]; exact Nat.lt_succ_self _)
                rw [h4, hs2]
                dsimp only
                rw [heapGet_heapSet_ne _ _ _ _ hanne]
                exact heapGet_heapSet_self _ _ _
            · exact hC6 k b hm'
      all_goals (
        subst hv0
        rw [dpLoop_skip env (f1 + 1) s a k0 _ rest' (fun b hb => by simp at hb)]
        obtain ⟨cur', h1, h2, h3, h4, h5, h6⟩ :=
          ih (f1 + 1) s a cur ha hndt
            (fun k b hm => hleaf k b (List.mem_cons_of_mem _ hm)) han hclean
            (by simp at hfuel; omega)
        refine ⟨cur', h1, h2, h3, h4, ?_, ?_⟩
        · intro k hk
          exact h5 k (fun hh => hk (List.mem_cons_of_mem _ hh))
        · intro k b hm
          rcases List.mem_cons.mp hm with hh | hm'
          · exfalso
            have h7 := congrArg Prod.snd hh
            simp at h7
          · exact h6 k b hm')

/-- C10.  Observation mutates caller-owned data in place: instrumenting a
    caller's plain object (address `a`) leaves the same heap cell raw but
    replaces, inside it, every object-valued field by a reference to a
    fresh proxy whose target is the caller's original nested object;
    non-object fields are untouched.  (Stated for one level of fresh
    nesting: each nested object is a leaf not aliased to `a`.) -/
theorem C10_theorem (env : Env) (fuel : Nat) (s : St) (a : Nat)
    (fields : List (String × JSVal))
    (ha : heapGet s.heap a = some (.raw false fields))
    (hnd : (fields.map Prod.fst).Nodup)
    (hleaf : ∀ k b, (k, JSVal.ref b) ∈ fields →
      b ≠ a ∧ b < s.next ∧ ∃ arb, heapGet s.heap b = some (.raw arb []))
    (han : a < s.next)
    (hclean : ∀ c, s.next ≤ c → heapGet s.heap c = none)
    (hfuel : fields.length < fuel) :
    ∃ cur',
      heapGet (deepProxy env (fuel + 1) s a).1.heap a =
        some (.raw false cur') ∧
      (∀ k, k ∉ fields.map Prod.fst → cur'.lookup k = fields.lookup k) ∧
      (∀ k b, (k, JSVal.ref b) ∈ fields →
        ∃ p, cur'.lookup k = some (.ref p) ∧
          heapGet (deepProxy env (fuel + 1) s a).1.heap p =
            some (.proxy b)) := by
  have he : entriesOf s.heap a = fields := by simp [entriesOf, entriesOfF, ha]
  rw [deepProxy, he]
  dsimp only
  obtain ⟨cur', hC1, hC2, hC3, hC4, hC5, hC6⟩ :=
    dpLoop_plain env fields fuel s a fields ha hnd hleaf han hclean hfuel
  have hna : (dpLoop env fuel s a fields).next ≠ a :=
    Ne.symm (Nat.ne_of_lt (lt_of_lt_of_le han hC2))
  refine ⟨cur', ?_, hC5, ?_⟩
  · rw [heapGet_heapSet_ne _ _ _ _ hna]
    exact hC1
  · intro k b hm
    obtain ⟨p, hp1, hp2⟩ := hC6 k b hm
    have hpn : p < (dpLoop env fuel s a fields).next := by
      by_contra hcon
      rw [hC3 p (Nat.le_of_not_lt hcon)] at hp2
      exact Option.noConfusion hp2
    refine ⟨p, hp1, ?_⟩
    rw [heapGet_heapSet_ne _ _ _ _ (Ne.symm (Nat.ne_of_lt hpn))]
    exact hp2

/-- C10 witness: observing `{x: leafObject, y: 7}` replaces the `x` field
    of the caller's original object (heap cell 1) by a proxy reference
    targeting the original leaf (heap cell 0) and leaves `y` unchanged. -/
theorem C10_witness :
    ∃ cur',
      heapGet (deepProxy envTriv 11 c10state 1).1.heap 1 =
        some (.raw false cur') ∧
      (∀ k, k ∉ ([("x", JSVal.ref 0), ("y", JSVal.num 7)].map Prod.fst) →
        cur'.lookup k = [("x", JSVal.ref 0), ("y", JSVal.num 7)].lookup k) ∧
      (∀ k b, (k, JSVal.ref b) ∈ [("x", JSVal.ref 0), ("y", JSVal.num 7)] →
        ∃ p, cur'.lookup k = some (.ref p) ∧
          heapGet (deepProxy envTriv 11 c10state 1).1.heap p =
            some (.proxy b)) :=
  C10_theorem envTriv 10 c10state 1 [("x", JSVal.ref 0), ("y", JSVal.num 7)]
    (by decide) (by decide)
    (by
      intro k b hm
      simp only [List.mem_cons, List.not_mem_nil, or_false] at hm
      rcases hm with h | h
      · have hb : b = 0 := by
          have h2 := congrArg Prod.snd h
          simpa using h2
        subst hb
        exact ⟨by decide, by decide, false, by decide⟩
      · exfalso
        have h2 := congrArg Prod.snd h
        simp at h2)
    (by decide)
    (by
      intro c hc
      have hc2 : 2 ≤ c := hc
      have h0 : (0 : Nat) ≠ c := by omega
      have h1 : (1 : Nat) ≠ c := by omega
      simp [c10state, c10heap, heapGet, h0, h1])
    (by decide)

lemma predGet_mem : ∀ (ps : List (JSVal × PredData)) (x : JSVal)
    (cd : PredData), predGet ps x = some cd → (x, cd) ∈ ps := by
  intro ps
  induction ps with
  | nil => intro x cd h; simp [predGet] at h
  | cons hd tl ih =>
      intro x cd h
      cases hd with
      | mk w d =>
          by_cases hw : w = x
          · subst hw
            simp [predGet] at h
            subst h
            exact List.mem_cons_self _ _
          · rw [predGet, if_neg hw] at h
            exact List.mem_cons_of_mem _ (ih x cd h)

lemma rcGate_nopath (env : Env) (s : St) (e : ChangeEvent) (cb : JSVal)
    (hpath : ∀ q ∈ s.predicates, (Prod.snd q).propertyPath = none) :
    rcGate env s e cb = (e, passes env s.predicates e cb) := by
  unfold rcGate passes
  cases hg : predGet s.predicates cb with
  | none => rfl
  | some cd =>
      have hp : cd.propertyPath = none := hpath (cb, cd) (predGet_mem _ _ _ hg)
      simp [hp]

lemma predGet_predDel_ne : ∀ (ps : List (JSVal × PredData)) (cb x : JSVal),
    x ≠ cb → predGet (predDel ps cb) x = predGet ps x := by
  intro ps
  induction ps with
  | nil => intro cb x hx; rfl
  | cons hd tl ih =>
      intro cb x hx
      obtain ⟨w, d⟩ := hd
      by_cases hw : w = cb
      · subst hw
        have h1 : predDel ((w, d) :: tl) w = tl := by simp [predDel]
        have h2 : predGet ((w, d) :: tl) x = predGet tl x := by
          rw [show predGet ((w, d) :: tl) x =
            if w = x then some d else predGet tl x from rfl,
            if_neg (fun hh => hx hh.symm)]
        rw [h1, h2]
      · have h1 : predDel ((w, d) :: tl) cb = (w, d) :: predDel tl cb := by
          simp [predDel, hw]
        rw [h1]
        by_cases hwx : w = x
        · subst hwx
          rw [show predGet ((w, d) :: predDel tl cb) w = some d from by
              simp [predGet],
            show predGet ((w, d) :: tl) w = some d from by simp [predGet]]
        · rw [show predGet ((w, d) :: predDel tl cb) x =
              predGet (predDel tl cb) x from by simp [predGet, hwx],
            show predGet ((w, d) :: tl) x = predGet tl x from by
              simp [predGet, hwx]]
          exact ih cb x hx

lemma mem_predDel : ∀ (ps : List (JSVal × PredData)) (cb : JSVal)
    (q : JSVal × PredData), q ∈ predDel ps cb → q ∈ ps := by
  intro ps
  induction ps with
  | nil => intro cb q h; simp [predDel] at h
  | cons hd tl ih =>
      intro cb q h
      cases hd with
      | mk w d =>
          by_cases hw : w = cb
          · subst hw
            simp only [predDel, if_pos rfl] at h
            exact List.mem_cons_of_mem _ h
          · simp only [predDel, if_neg hw] at h
            rcases List.mem_cons.mp h with hh | hh
            · exact hh ▸ List.mem_cons_self _ _
            · exact List.mem_cons_of_mem _ (ih cb q hh)

lemma findLiveAux_none : ∀ (l : List (JSVal × Bool)) (i : Nat),
    findLiveAux l i = none → l.filter (fun q => q.2) = [] := by
  intro l
  induction l with
  | nil => intro i h; rfl
  | cons hd tl ih =>
      intro i h
      obtain ⟨v, alive⟩ := hd
      cases alive with
      | true => simp [findLiveAux] at h
      | false =>
          simp only [findLiveAux] at h
          simpa using ih (i + 1) h

lemma findLiveAux_some : ∀ (l : List (JSVal × Bool)) (i j : Nat) (cb : JSVal),
    findLiveAux l i = some (j, cb) →
    ∃ l1 l2, l = l1 ++ (cb, true) :: l2 ∧ l1.filter (fun q => q.2) = [] ∧
      j = i + l1.length := by
  intro l
  induction l with
  | nil => intro i j cb h; simp [findLiveAux] at h
  | cons hd tl ih =>
      intro i j cb h
      obtain ⟨v, alive⟩ := hd
      cases alive with
      | true =>
          simp only [findLiveAux, if_pos] at h
          obtain ⟨rfl, rfl⟩ : i = j ∧ v = cb := by
            have h2 := Option.some.inj h
            exact ⟨congrArg Prod.fst h2, congrArg Prod.snd h2⟩
          exact ⟨[], tl, rfl, rfl, by simp⟩
      | false =>
          simp only [findLiveAux] at h
          obtain ⟨l1, l2, he, hf, hj⟩ := ih (i + 1) j cb (by simpa using h)
          refine ⟨(v, false) :: l1, l2, by simp [he], by simpa using hf, ?_⟩
          simp only [List.length_cons]
          omega

lemma drop_len_cons : ∀ (l1 : List (JSVal × Bool)) (x : JSVal × Bool)
    (l2 : List (JSVal × Bool)), (l1 ++ x :: l2).drop (l1.length + 1) = l2 := by
  intro l1
  induction l1 with
  | nil => intro x l2; rfl
  | cons hd tl ih => intro x l2; simp only [List.cons_append, List.length_cons]; exact ih x l2

lemma setDelete_eq_of_notlive : ∀ (pre : List (JSVal × Bool)) (cb : JSVal)
    (l2 : List (JSVal × Bool)),
    (∀ q ∈ pre, ¬(q.2 = true ∧ q.1 = cb)) →
    setDelete (pre ++ (cb, true) :: l2) cb = pre ++ (cb, false) :: l2 := by
  intro pre
  induction pre with
  | nil => intro cb l2 h; simp [setDelete]
  | cons hd tl ih =>
      intro cb l2 h
      obtain ⟨v, alive⟩ := hd
      have hh := h (v, alive) (List.mem_cons_self _ _)
      have hcond : (alive && v == cb) = false := by
        cases alive with
        | false => simp
        | true =>
            simp only [Bool.true_and]
            exact beq_eq_false_iff_ne.mpr (fun hv => hh ⟨rfl, hv⟩)
      simp only [List.cons_append]
      rw [setDelete, hcond]
      simp only [Bool.false_eq_true, if_false]
      rw [ih cb l2 (fun q hq => h q (List.mem_cons_of_mem _ hq))]

lemma invokeEffects_parts (env : Env) (s : St) (cb : JSVal)
    (hact : ∀ n, env.act n = []) :
    (invokeEffects env s cb).invocations = s.invocations ∧
    (invokeEffects env s cb).callbacks = s.callbacks ∧
    (invokeEffects env s cb).toRemove = s.toRemove ∧
    (invokeEffects env s cb).predicates = s.predicates := by
  cases cb with
  | func n => simp [invokeEffects, hact n, applyActs]
  | undef => exact ⟨rfl, rfl, rfl, rfl⟩
  | null => exact ⟨rfl, rfl, rfl, rfl⟩
  | bool b => exact ⟨rfl, rfl, rfl, rfl⟩
  | num n => exact ⟨rfl, rfl, rfl, rfl⟩
  | str q => exact ⟨rfl, rfl, rfl, rfl⟩
  | ref a => exact ⟨rfl, rfl, rfl, rfl⟩

lemma rcInvoke_parts (env : Env) (s : St) (cb : JSVal) (e1 : ChangeEvent)
    (hact : ∀ n, env.act n = []) :
    (rcInvoke env s cb e1).invocations = s.invocations ++ [(cb, e1)] ∧
    ((rcInvoke env s cb e1).callbacks = s.callbacks ∧
        (rcInvoke env s cb e1).predicates = s.predicates ∨
      (rcInvoke env s cb e1).callbacks = setDelete s.callbacks cb ∧
        (rcInvoke env s cb e1).predicates = predDel s.predicates cb) := by
  have hp := invokeEffects_parts env
    { s with invocations := s.invocations ++ [(cb, e1)] } cb hact
  unfold rcInvoke
  dsimp only
  split
  · refine ⟨?_, Or.inr ⟨?_, ?_⟩⟩
    · simpa [removeChangeListener] using hp.1
    · simp [removeChangeListener, hp.2.1]
    · simp [removeChangeListener, hp.2.2.2]
  · exact ⟨hp.1, Or.inl ⟨hp.2.1, hp.2.2.2⟩⟩

lemma rcLoop_spec (env : Env) (hact : ∀ n, env.act n = []) :
    ∀ (fuel : Nat) (s : St) (e : ChangeEvent) (i : Nat),
      (∀ q ∈ s.predicates, (Prod.snd q).propertyPath = none) →
      (liveFrom s.callbacks 0).Nodup →
      s.callbacks.length - i < fuel →
      (rcLoop env fuel s e i).invocations =
        s.invocations ++
          ((liveFrom s.callbacks i).filter (passes env s.predicates e)).map
            (fun cb => (cb, e)) := by
  intro fuel
  induction fuel with
  | zero => intro s e i hpath hnd hfuel; omega
  | succ fuel ih =>
      intro s e i hpath hnd hfuel
      rw [rcLoop]
      cases hf : findLive s.callbacks i with
      | none =>
          have h0 : liveFrom s.callbacks i = [] := by
            have h1 := findLiveAux_none (s.callbacks.drop i) i hf
            simp [liveFrom, h1]
          rw [h0]
          simp
      | some jc =>
          obtain ⟨j, cb⟩ := jc
          obtain ⟨l1, l2, hdec, hdead, hj⟩ :=
            findLiveAux_some (s.callbacks.drop i) i j cb hf
          have hlen : s.callbacks.length - i = l1.length + 1 + l2.length := by
            have h1 := congrArg List.length hdec
            simp [List.length_drop] at h1
            omega
          have hdrop : s.callbacks.drop (j + 1) = l2 := by
            have h1 : j + 1 = i + (l1.length + 1) := by omega
            rw [h1, ← List.drop_drop, hdec, drop_len_cons]
          have hlive : liveFrom s.callbacks i =
              cb :: liveFrom s.callbacks (j + 1) := by
            rw [liveFrom, hdec, liveFrom, hdrop]
            simp [List.filter_append, hdead]
          have hsplit : s.callbacks =
              (s.callbacks.take i ++ l1) ++ (cb, true) :: l2 := by
            rw [List.append_assoc, ← hdec, List.take_append_drop]
          have hlive0 : liveFrom s.callbacks 0 =
              (((s.callbacks.take i ++ l1).filter (fun q => q.2)).map Prod.fst)
                ++ cb :: ((l2.filter (fun q => q.2)).map Prod.fst) := by
            rw [liveFrom, List.drop_zero]
            conv_lhs => rw [hsplit]
            simp [List.filter_append]
          have hnd' := hnd
          rw [hlive0] at hnd'
          have hcbpre : cb ∉
              ((s.callbacks.take i ++ l1).filter (fun q => q.2)).map Prod.fst := by
            intro hmem
            exact (List.nodup_append.mp hnd').2.2 hmem
              (List.mem_cons_self cb _)
          have hcbl2 : cb ∉ ((l2.filter (fun q => q.2)).map Prod.fst) := by
            have h2 := (List.nodup_append.mp hnd').2.1
            exact (List.nodup_cons.mp h2).1
          have hl2live : liveFrom s.callbacks (j + 1) =
              (l2.filter (fun q => q.2)).map Prod.fst := by
            rw [liveFrom, hdrop]
          dsimp only
          rw [rcGate_nopath env s e cb hpath]
          dsimp only
          by_cases hex : passes env s.predicates e cb = true
          · rw [if_pos hex]
            obtain ⟨hInv, hOr⟩ := rcInvoke_parts env s cb e hact
            rcases hOr with ⟨hcb3, hpd3⟩ | ⟨hcb3, hpd3⟩
            · rw [ih (rcInvoke env s cb e) e (j + 1)
                (by rw [hpd3]; exact hpath)
                (by rw [hcb3]; exact hnd)
                (by rw [hcb3]; omega)]
              rw [hInv, hcb3, hpd3, hlive]
              rw [List.filter_cons_of_pos hex]
              simp
            · have hipre : i ≤ s.callbacks.length := by omega
              have hpre_len : (s.callbacks.take i ++ l1).length = j := by
                simp [List.length_take]
                omega
              have hsd : setDelete s.callbacks cb =
                  (s.callbacks.take i ++ l1) ++ (cb, false) :: l2 := by
                conv_lhs => rw [hsplit]
                refine setDelete_eq_of_notlive _ cb l2 ?_
                intro q hq hql
                refine hcbpre ?_
                have hqf : q ∈ (s.callbacks.take i ++ l1).filter (fun q => q.2) :=
                  List.mem_filter.mpr ⟨hq, by simp [hql.1]⟩
                have := List.mem_map_of_mem Prod.fst hqf
                rwa [hql.2] at this
              have hdrop3 : (setDelete s.callbacks cb).drop (j + 1) = l2 := by
                rw [hsd, show j + 1 = (s.callbacks.take i ++ l1).length + 1 from
                  by omega]
                exact drop_len_cons _ _ _
              have hlen3 : (setDelete s.callbacks cb).length =
                  s.callbacks.length := by
                rw [hsd]
                conv_rhs => rw [hsplit]
                simp
              have hlive3 : liveFrom (setDelete s.callbacks cb) 0 =
                  (((s.callbacks.take i ++ l1).filter (fun q => q.2)).map Prod.fst)
                    ++ ((l2.filter (fun q => q.2)).map Prod.fst) := by
                rw [liveFrom, List.drop_zero, hsd]
                simp [List.filter_append]
              have hnd3 : (liveFrom (setDelete s.callbacks cb) 0).Nodup := by
                rw [hlive3]
                refine List.Nodup.sublist ?_ hnd'
                exact List.Sublist.append_left (List.sublist_cons_self _ _) _
              have hlive3' : liveFrom (setDelete s.callbacks cb) (j + 1) =
                  liveFrom s.callbacks (j + 1) := by
                rw [liveFrom, hdrop3, hl2live]
              have hpath3 : ∀ q ∈ predDel s.predicates cb,
                  (Prod.snd q).propertyPath = none :=
                fun q hq => hpath q (mem_predDel _ _ _ hq)
              rw [ih (rcInvoke env s cb e) e (j + 1)
                (by rw [hpd3]; exact hpath3)
                (by rw [hcb3]; exact hnd3)
                (by rw [hcb3, hlen3]; omega)]
              rw [hInv, hcb3, hpd3, hlive3', hlive]
              rw [List.filter_cons_of_pos hex]
              have hcong : (liveFrom s.callbacks (j + 1)).filter
                    (passes env (predDel s.predicates cb) e) =
                  (liveFrom s.callbacks (j + 1)).filter
                    (passes env s.predicates e) := by
                refine List.filter_congr ?_
                intro x hx
                have hxcb : x ≠ cb := by
                  intro hh
                  rw [hl2live] at hx
                  exact hcbl2 (hh ▸ hx)
                simp [passes, predGet_predDel_ne _ _ _ hxcb]
              rw [hcong]
              simp
          · rw [if_neg hex]
            rw [ih s e (j + 1) hpath hnd (by omega)]
            rw [hlive, List.filter_cons_of_neg hex]

/-- C3 (amended).  Dispatch iterates the live set, not a snapshot.  First
    conjunct: when no callback mutates the registry during dispatch and no
    condition carries a property path, the listeners considered are
    exactly those live at dispatch start — each predicate-passing listener
    invoked exactly once, in registration order, with the dispatched
    event, none skipped, none doubled, none added.  Second conjunct: a
    listener added from within a callback during dispatch is visited for
    that same event — on `c3addRun` (callback 1 registers callback 3
    mid-dispatch of a single event) the not-initially-registered
    callback 3 is invoked in the same single dispatch. -/
theorem C3_amended (env : Env) (fuel : Nat) (s : St) (e : ChangeEvent)
    (hact : ∀ n, env.act n = [])
    (hpath : ∀ q ∈ s.predicates, (Prod.snd q).propertyPath = none)
    (hnd : (liveFrom s.callbacks 0).Nodup)
    (hfuel : s.callbacks.length < fuel) :
    ((runCallbacks env (fuel + 1) s e).invocations =
      s.invocations ++
        ((liveFrom s.callbacks 0).filter (passes env s.predicates e)).map
          (fun cb => (cb, e))) ∧
    (setMem c3addBase.callbacks (.func 3) = false ∧
      c3addRun.dispatches.length = 1 ∧
      c3addRun.invocations.map Prod.fst =
        [JSVal.func 1, JSVal.func 2, JSVal.func 3] ∧
      (c3addRun.invocations.map Prod.snd).eraseDups.length = 1) := by
  constructor
  · rw [runCallbacks]
    exact rcLoop_spec env hact fuel
      { s with dispatches := s.dispatches ++ [e] } e 0 hpath hnd
      (by show s.callbacks.length - 0 < fuel; omega)
  · exact ⟨by decide, by decide, by decide, by decide⟩

/-- C3 witness: on two effect-free listeners, a dispatch invokes exactly
    both, in order, once each. -/
theorem C3_witness :
    (runCallbacks envTriv 5 c3pure eSample).invocations =
      c3pure.invocations ++
        ((liveFrom c3pure.callbacks 0).filter
            (passes envTriv c3pure.predicates eSample)).map
          (fun cb => (cb, eSample)) :=
  (C3_amended envTriv 4 c3pure eSample (fun _ => rfl)
    (by
      have h : c3pure.predicates = [] := by decide
      intro q hq
      rw [h] at hq
      exact absurd hq (List.not_mem_nil q))
    (by decide) (by decide)).1
